import Mathlib

set_option maxHeartbeats 1000000

/-!
A shallow embedding of `src/viser/client/src/SceneTree.tsx`: the scene-tree
store state (node registry plus the visibility, matrix and object overlays)
and its mutation operations.  JavaScript objects with string keys are
modelled by insertion-ordered association lists; the JavaScript string
methods used by the source (`split`, `join`, `startsWith`) are modelled by
structurally recursive functions on character lists.
-/

/-- Renderable factories (`MakeObject` in the source) are opaque to the state
layer; we model them as tokens. -/
abbrev MakeObject := Nat

/-- Opaque transform values (`THREE.Matrix4`). -/
abbrev Matrix4 := Nat

/-- Opaque renderable handles (`THREE.Object3D`). -/
abbrev Object3D := Nat

/-- Lookup in a JavaScript-style object: value of the first entry with the
given key. -/
def jget? {α : Type} : List (String × α) → String → Option α
  | [], _ => none
  | e :: rest, k => if e.1 = k then some e.2 else jget? rest k

/-- Membership test `k in obj`. -/
def jmem {α : Type} (m : List (String × α)) (k : String) : Bool :=
  (jget? m k).isSome

/-- Assignment `obj[k] = v`: replaces the value at an existing key in place,
otherwise appends the new key at the end (JavaScript insertion order). -/
def jset {α : Type} : List (String × α) → String → α → List (String × α)
  | [], k, v => [(k, v)]
  | e :: rest, k, v => if e.1 = k then (k, v) :: rest else e :: jset rest k v

/-- Deletion `delete obj[k]`. -/
def jdel {α : Type} : List (String × α) → String → List (String × α)
  | [], _ => []
  | e :: rest, k => if e.1 = k then jdel rest k else e :: jdel rest k

/-- `Object.keys(obj)`, in insertion order. -/
def jkeys {α : Type} (m : List (String × α)) : List String :=
  m.map Prod.fst

/-- Splitting a character list at a separator character, accumulating the
current segment in reverse. -/
def splitCharsAux (sep : Char) : List Char → List Char → List (List Char)
  | [], acc => [acc.reverse]
  | c :: rest, acc =>
      if c = sep then acc.reverse :: splitCharsAux sep rest []
      else splitCharsAux sep rest (c :: acc)

/-- JavaScript `s.split(sep)` for a one-character separator; in particular
the split of the empty string is `[""]`. -/
def jsSplit (sep : Char) (s : String) : List String :=
  (splitCharsAux sep s.data []).map String.mk

/-- JavaScript `parts.join("/")`. -/
def jsJoin : List String → String
  | [] => ""
  | [p] => p
  | p :: rest => p ++ "/" ++ jsJoin rest

/-- Character-list matcher behind `jsStartsWith`. -/
def chStarts : List Char → List Char → Bool
  | [], _ => true
  | _ :: _, [] => false
  | a :: pr, b :: sr => a == b && chStarts pr sr

/-- JavaScript `s.startsWith(pat)`: bare textual matching, not segment
aware. -/
def jsStartsWith (s pat : String) : Bool :=
  chStarts pat.data s.data

/-- The textual parent of a path, as computed by the source:
`name.split("/").slice(0, -1).join("/")`. -/
def parentName (name : String) : String :=
  jsJoin ((jsSplit '/' name).dropLast)

/-- Scene node record: path, renderable factory, ordered child paths. -/
structure SceneNode where
  name : String
  make_object : MakeObject
  children : List String
  deriving DecidableEq, Repr

/-- The `new SceneNode(name, make_object)` constructor: the child list
starts empty. -/
def mkSceneNode (name : String) (make_object : MakeObject) : SceneNode :=
  { name := name, make_object := make_object, children := [] }

/-- The scene-tree store state: node registry plus the three overlays. -/
structure SceneTreeState where
  nodeFromName : List (String × SceneNode)
  visibilityFromName : List (String × Bool)
  matrixFromName : List (String × Matrix4)
  objFromName : List (String × Object3D)
  deriving DecidableEq, Repr

def rootFrameTemplate : MakeObject := 0

def rootAxesTemplate : MakeObject := 1

/-- The seeded root node, after `rootNodeTemplate.children.push("/WorldAxes")`. -/
def rootNodeTemplate : SceneNode :=
  { name := "", make_object := rootFrameTemplate, children := ["/WorldAxes"] }

/-- The seeded world-axes node. -/
def rootAxesNode : SceneNode :=
  { name := "/WorldAxes", make_object := rootAxesTemplate, children := [] }

/-- `cleanSceneTreeState` from the source. -/
def cleanSceneTreeState : SceneTreeState :=
  { nodeFromName := [("", rootNodeTemplate), ("/WorldAxes", rootAxesNode)],
    visibilityFromName := [("", true), ("/WorldAxes", true)],
    matrixFromName := [],
    objFromName := [] }

/-- `setObj(name, obj)`. -/
def setObj (name : String) (obj : Object3D) (s : SceneTreeState) : SceneTreeState :=
  { s with objFromName := jset s.objFromName name obj }

/-- `setVisibility(name, visible)`. -/
def setVisibility (name : String) (visible : Bool) (s : SceneTreeState) : SceneTreeState :=
  { s with visibilityFromName := jset s.visibilityFromName name visible }

/-- `setMatrix(name, matrix)`. -/
def setMatrix (name : String) (matrix : Matrix4) (s : SceneTreeState) : SceneTreeState :=
  { s with matrixFromName := jset s.matrixFromName name matrix }

/-- `clearObj(name)`. -/
def clearObj (name : String) (s : SceneTreeState) : SceneTreeState :=
  { s with objFromName := jdel s.objFromName name }

/-- `addSceneNode(node)`.  If the name is already registered the factory is
replaced while the existing child list is kept.  Otherwise the node is
stored, its name is pushed onto the children of the entry at the textual
parent path, and visibility defaults to `true` unless an entry already
exists.  Reading `.children` of a missing parent entry throws in
JavaScript, aborting the immer producer before any change is committed; we
model this with `none`. -/
def addSceneNode (node : SceneNode) (s : SceneTreeState) : Option SceneTreeState :=
  match jget? s.nodeFromName node.name with
  | some existing =>
      let reskinned := { node with children := existing.children }
      some { s with nodeFromName := jset s.nodeFromName node.name reskinned }
  | none =>
      let withNode := jset s.nodeFromName node.name node
      match jget? withNode (parentName node.name) with
      | none => none
      | some parent =>
          let grown := { parent with children := parent.children ++ [node.name] }
          let vis :=
            if jmem s.visibilityFromName node.name then s.visibilityFromName
            else jset s.visibilityFromName node.name true
          some { s with
                 nodeFromName := jset withNode (parentName node.name) grown,
                 visibilityFromName := vis }

/-- `removeSceneNode(name)`.  A missing name is a logged no-op.  Otherwise
the name is filtered out of the children of the entry at the textual parent
path (a missing parent entry throws, modelled with `none`), the visibility
and matrix overlay entries for the name itself are deleted, and every
registry key on which `startsWith(name)` holds is deleted. -/
def removeSceneNode (name : String) (s : SceneTreeState) : Option SceneTreeState :=
  if jmem s.nodeFromName name then
    match jget? s.nodeFromName (parentName name) with
    | none => none
    | some parent =>
        let newNodes := jset s.nodeFromName (parentName name)
          { parent with children := parent.children.filter (fun c => c != name) }
        let removeNames := (jkeys newNodes).filter (fun q => jsStartsWith q name)
        some { s with
               nodeFromName := removeNames.foldl (fun acc q => jdel acc q) newNodes,
               visibilityFromName := jdel s.visibilityFromName name,
               matrixFromName := jdel s.matrixFromName name }
  else some s

/-- `resetScene()`.  The source producer executes
`state = { ...state, ...cleanSceneTreeState }`, which reassigns the local
draft variable and returns nothing; under the immer middleware this commits
no change, so the store state after the call equals the state before it. -/
def resetScene (s : SceneTreeState) : SceneTreeState := s

/-- Applies a list of `addSceneNode` calls built from `(path, factory)`
pairs via the `SceneNode` constructor; a thrown call leaves the committed
state unchanged. -/
def addAll : List (String × MakeObject) → SceneTreeState → SceneTreeState
  | [], s => s
  | (n, mo) :: rest, s =>
      addAll rest ((addSceneNode (mkSceneNode n mo) s).getD s)

/-- Checks that along a list of `addSceneNode` calls, each added path has
its textual parent path present in the registry at the moment of the call
(root-to-leaf order). -/
def parentsOk : List (String × MakeObject) → SceneTreeState → Bool
  | [], _ => true
  | (n, mo) :: rest, s =>
      jmem s.nodeFromName (parentName n) &&
        parentsOk rest ((addSceneNode (mkSceneNode n mo) s).getD s)

/-- Number of occurrences of a path in a list of child paths. -/
def countStr (p : String) : List String → Nat
  | [] => 0
  | q :: rest => (if q = p then 1 else 0) + countStr p rest

/-- Total number of occurrences of a path across all child lists of a
registry. -/
def childCount : List (String × SceneNode) → String → Nat
  | [], _ => 0
  | e :: rest, p => countStr p e.2.children + childCount rest p

/-! ### Lemmas about the JavaScript-object model -/

section JMapLemmas

variable {α : Type}

theorem jget?_jset_self (m : List (String × α)) (k : String) (v : α) :
    jget? (jset m k v) k = some v := by
  induction m with
  | nil => simp [jset, jget?]
  | cons e rest ih =>
      by_cases h : e.1 = k
      · simp [jset, h, jget?]
      · simp [jset, h, jget?, ih]

theorem jget?_jset_ne (m : List (String × α)) (k q : String) (v : α) (h : q ≠ k) :
    jget? (jset m k v) q = jget? m q := by
  induction m with
  | nil => simp [jset, jget?, Ne.symm h]
  | cons e rest ih =>
      by_cases h1 : e.1 = k
      · subst h1
        simp [jset, jget?, Ne.symm h]
      · have hs : jset (e :: rest) k v = e :: jset rest k v := by
          simp [jset, h1]
        rw [hs]
        by_cases h2 : e.1 = q
        · simp [jget?, h2]
        · simp [jget?, h2, ih]

theorem jmem_jset_self (m : List (String × α)) (k : String) (v : α) :
    jmem (jset m k v) k = true := by
  simp [jmem, jget?_jset_self]

theorem jmem_jset_ne (m : List (String × α)) (k q : String) (v : α) (h : q ≠ k) :
    jmem (jset m k v) q = jmem m q := by
  simp [jmem, jget?_jset_ne m k q v h]

theorem jmem_true_iff (m : List (String × α)) (k : String) :
    jmem m k = true ↔ ∃ v, jget? m k = some v := by
  simp [jmem, Option.isSome_iff_exists]

theorem jmem_false_iff (m : List (String × α)) (k : String) :
    jmem m k = false ↔ jget? m k = none := by
  cases h : jget? m k <;> simp [jmem, h]

theorem jset_of_get_none (m : List (String × α)) (k : String) (v : α)
    (h : jget? m k = none) : jset m k v = m ++ [(k, v)] := by
  induction m with
  | nil => simp [jset]
  | cons e rest ih =>
      by_cases h1 : e.1 = k
      · simp [jget?, h1] at h
      · simp [jget?, h1] at h
        simp [jset, h1, ih h]

theorem jset_append_of_mem (m l : List (String × α)) (k : String) (v : α)
    (h : jmem m k = true) : jset (m ++ l) k v = jset m k v ++ l := by
  induction m with
  | nil => simp [jmem, jget?] at h
  | cons e rest ih =>
      by_cases h1 : e.1 = k
      · simp [jset, h1]
      · have h' : jmem rest k = true := by simpa [jmem, jget?, h1] using h
        simp [jset, h1, ih h']

theorem jget?_append_left (m l : List (String × α)) (k : String)
    (h : jmem m k = true) : jget? (m ++ l) k = jget? m k := by
  induction m with
  | nil => simp [jmem, jget?] at h
  | cons e rest ih =>
      by_cases h1 : e.1 = k
      · simp [jget?, h1]
      · have h' : jmem rest k = true := by simpa [jmem, jget?, h1] using h
        simp [jget?, h1, ih h']

theorem jget?_append_right (m l : List (String × α)) (k : String)
    (h : jmem m k = false) : jget? (m ++ l) k = jget? l k := by
  induction m with
  | nil => simp
  | cons e rest ih =>
      by_cases h1 : e.1 = k
      · simp [jmem, jget?, h1] at h
      · have h' : jmem rest k = false := by simpa [jmem, jget?, h1] using h
        simp [jget?, h1, ih h']

theorem jmem_append (m l : List (String × α)) (k : String) :
    jmem (m ++ l) k = (jmem m k || jmem l k) := by
  cases h : jmem m k with
  | true =>
      unfold jmem at h ⊢
      rw [jget?_append_left m l k h]
      simp [h]
  | false =>
      unfold jmem at h ⊢
      rw [jget?_append_right m l k h]
      simp [h]

end JMapLemmas

section JDelLemmas

variable {α : Type}

theorem jget?_jdel_self (m : List (String × α)) (k : String) :
    jget? (jdel m k) k = none := by
  induction m with
  | nil => simp [jdel, jget?]
  | cons e rest ih =>
      by_cases h : e.1 = k
      · simp [jdel, h, ih]
      · simp [jdel, h, jget?, ih]

theorem jget?_jdel_ne (m : List (String × α)) (k q : String) (h : q ≠ k) :
    jget? (jdel m k) q = jget? m q := by
  induction m with
  | nil => simp [jdel]
  | cons e rest ih =>
      by_cases h1 : e.1 = k
      · have h2 : e.1 ≠ q := by rw [h1]; exact Ne.symm h
        simp [jdel, h1, jget?, h2, ih, Ne.symm h]
      · by_cases h2 : e.1 = q
        · simp [jdel, h1, jget?, h2, h]
        · simp [jdel, h1, jget?, h2, ih]

theorem jmem_jdel_self (m : List (String × α)) (k : String) :
    jmem (jdel m k) k = false := by
  simp [jmem, jget?_jdel_self]

theorem jmem_jdel_ne (m : List (String × α)) (k q : String) (h : q ≠ k) :
    jmem (jdel m k) q = jmem m q := by
  simp [jmem, jget?_jdel_ne m k q h]

theorem mem_jdel (m : List (String × α)) (k : String) (e : String × α)
    (h : e ∈ jdel m k) : e ∈ m ∧ e.1 ≠ k := by
  induction m with
  | nil => simp [jdel] at h
  | cons f rest ih =>
      by_cases h1 : f.1 = k
      · rw [jdel] at h
        rw [if_pos h1] at h
        rcases ih h with ⟨hm, hk⟩
        exact ⟨List.mem_cons_of_mem f hm, hk⟩
      · rw [jdel] at h
        rw [if_neg h1] at h
        rcases List.mem_cons.mp h with h2 | h2
        · subst h2; exact ⟨List.mem_cons_self e rest, h1⟩
        · rcases ih h2 with ⟨hm, hk⟩
          exact ⟨List.mem_cons_of_mem f hm, hk⟩

theorem jmem_foldl_jdel_of_false (ks : List String) (m : List (String × α))
    (q : String) (h : jmem m q = false) :
    jmem (ks.foldl (fun acc k => jdel acc k) m) q = false := by
  induction ks generalizing m with
  | nil => simpa using h
  | cons k rest ih =>
      rw [List.foldl_cons]
      apply ih
      by_cases h1 : q = k
      · subst h1; exact jmem_jdel_self m q
      · rw [jmem_jdel_ne m k q h1]; exact h

theorem jmem_foldl_jdel_of_mem (ks : List String) (m : List (String × α))
    (q : String) (h : q ∈ ks) :
    jmem (ks.foldl (fun acc k => jdel acc k) m) q = false := by
  induction ks generalizing m with
  | nil => simp at h
  | cons k rest ih =>
      rw [List.foldl_cons]
      rcases List.mem_cons.mp h with h1 | h1
      · subst h1
        exact jmem_foldl_jdel_of_false rest (jdel m q) q (jmem_jdel_self m q)
      · exact ih (jdel m k) h1

theorem foldl_jdel_eq_nil (ks : List String) (m : List (String × α))
    (h : ∀ e ∈ m, e.1 ∈ ks) :
    ks.foldl (fun acc k => jdel acc k) m = [] := by
  induction ks generalizing m with
  | nil =>
      cases m with
      | nil => rfl
      | cons e rest => exact absurd (h e (List.mem_cons_self e rest)) (List.not_mem_nil e.1)
  | cons k rest ih =>
      rw [List.foldl_cons]
      apply ih
      intro e he
      rcases mem_jdel m k e he with ⟨hm, hk⟩
      rcases List.mem_cons.mp (h e hm) with h1 | h1
      · exact absurd h1 hk
      · exact h1

theorem jset_jset_self (m : List (String × α)) (k : String) (v1 v2 : α) :
    jset (jset m k v1) k v2 = jset m k v2 := by
  induction m with
  | nil => simp [jset]
  | cons e rest ih =>
      by_cases h : e.1 = k
      · simp [jset, h]
      · simp [jset, h, ih]

theorem jmem_iff_mem_jkeys (m : List (String × α)) (k : String) :
    jmem m k = true ↔ k ∈ jkeys m := by
  induction m with
  | nil => simp [jmem, jget?, jkeys]
  | cons e rest ih =>
      by_cases h : e.1 = k
      · simp [jmem, jget?, h, jkeys]
      · simp only [jmem, jget?, if_neg h, jkeys, List.map_cons, List.mem_cons]
        rw [← jkeys, ← jmem]
        rw [ih]
        constructor
        · intro hmem; exact Or.inr hmem
        · intro hmem
          rcases hmem with h1 | h1
          · exact absurd h1.symm h
          · exact h1

end JDelLemmas

section CountLemmas

theorem countStr_append (p : String) (l1 l2 : List String) :
    countStr p (l1 ++ l2) = countStr p l1 + countStr p l2 := by
  induction l1 with
  | nil => simp [countStr]
  | cons q rest ih => simp [countStr, ih]; omega

theorem countStr_singleton (p q : String) :
    countStr p [q] = if q = p then 1 else 0 := by
  simp [countStr]

theorem childCount_append (m l : List (String × SceneNode)) (p : String) :
    childCount (m ++ l) p = childCount m p + childCount l p := by
  induction m with
  | nil => simp [childCount]
  | cons e rest ih => simp [childCount, ih]; omega

theorem childCount_jset_of_get (m : List (String × SceneNode)) (k : String)
    (w v : SceneNode) (p : String) (hg : jget? m k = some w) :
    childCount (jset m k v) p + countStr p w.children
      = childCount m p + countStr p v.children := by
  induction m with
  | nil => simp [jget?] at hg
  | cons e rest ih =>
      by_cases h : e.1 = k
      · rw [jget?, if_pos h] at hg
        have hw : w = e.2 := by injection hg with hh; exact hh.symm
        subst hw
        rw [jset, if_pos h]
        simp [childCount]
        omega
      · rw [jget?, if_neg h] at hg
        rw [jset, if_neg h]
        simp only [childCount]
        have := ih hg
        omega

end CountLemmas

/-! ### Equation lemmas for the mutation operations -/

theorem parentName_empty : parentName "" = "" := by decide

theorem addSceneNode_replace (node : SceneNode) (s : SceneTreeState)
    (existing : SceneNode) (hg : jget? s.nodeFromName node.name = some existing) :
    addSceneNode node s = some { s with nodeFromName := jset s.nodeFromName node.name { node with children := existing.children } } := by
  unfold addSceneNode
  rw [hg]

theorem addSceneNode_insert (node : SceneNode) (s : SceneTreeState)
    (parent : SceneNode)
    (hg : jget? s.nodeFromName node.name = none)
    (hp : jget? (jset s.nodeFromName node.name node) (parentName node.name) = some parent) :
    addSceneNode node s = some { s with nodeFromName := jset (jset s.nodeFromName node.name node) (parentName node.name) { parent with children := parent.children ++ [node.name] }, visibilityFromName := if jmem s.visibilityFromName node.name then s.visibilityFromName else jset s.visibilityFromName node.name true } := by
  unfold addSceneNode
  rw [hg]
  dsimp only
  rw [hp]

theorem addSceneNode_orphan (node : SceneNode) (s : SceneTreeState)
    (hg : jget? s.nodeFromName node.name = none)
    (hp : jget? (jset s.nodeFromName node.name node) (parentName node.name) = none) :
    addSceneNode node s = none := by
  unfold addSceneNode
  rw [hg]
  dsimp only
  rw [hp]

theorem removeSceneNode_absent (name : String) (s : SceneTreeState)
    (h : jmem s.nodeFromName name = false) :
    removeSceneNode name s = some s := by
  unfold removeSceneNode
  rw [h]
  rfl

theorem removeSceneNode_present (name : String) (s : SceneTreeState)
    (parent : SceneNode)
    (h : jmem s.nodeFromName name = true)
    (hp : jget? s.nodeFromName (parentName name) = some parent) :
    removeSceneNode name s = some { s with nodeFromName := ((jkeys (jset s.nodeFromName (parentName name) { parent with children := parent.children.filter (fun c => c != name) })).filter (fun q => jsStartsWith q name)).foldl (fun acc q => jdel acc q) (jset s.nodeFromName (parentName name) { parent with children := parent.children.filter (fun c => c != name) }), visibilityFromName := jdel s.visibilityFromName name, matrixFromName := jdel s.matrixFromName name } := by
  unfold removeSceneNode
  rw [h]
  dsimp only
  rw [hp]
  rfl

/-! ### The registry invariant for root-to-leaf insertion sequences -/

theorem jmem_single_iff {α : Type} (k q : String) (v : α) :
    jmem [(k, v)] q = true ↔ k = q := by
  by_cases h : k = q <;> simp [jmem, jget?, h]

theorem jmem_single_false {α : Type} (k q : String) (v : α) (h : k ≠ q) :
    jmem [(k, v)] q = false := by
  simp [jmem, jget?, h]

/-- Registry invariant: a path absent from the registry occurs in no child
list; a registered non-root path occurs exactly once across all child lists;
and any entry whose child list contains a path is the entry at that path's
textual parent. -/
def RegInv (m : List (String × SceneNode)) : Prop :=
  (∀ p, jmem m p = false → childCount m p = 0) ∧
  (∀ p, jmem m p = true → p ≠ "" → childCount m p = 1) ∧
  (∀ p q nd, jget? m q = some nd → p ∈ nd.children → q = parentName p)

theorem regInv_clean : RegInv cleanSceneTreeState.nodeFromName := by
  refine ⟨?_, ?_, ?_⟩
  · intro p hp
    by_cases h1 : p = "/WorldAxes"
    · subst h1; exact absurd hp (by decide)
    · show childCount cleanSceneTreeState.nodeFromName p = 0
      simp [cleanSceneTreeState, childCount, rootNodeTemplate, rootAxesNode,
        countStr, Ne.symm h1]
  · intro p hp hne
    by_cases h1 : p = "/WorldAxes"
    · subst h1; decide
    · exfalso
      have hfalse : jmem cleanSceneTreeState.nodeFromName p = false := by
        simp [cleanSceneTreeState, jmem, jget?, Ne.symm hne, Ne.symm h1]
      rw [hfalse] at hp
      cases hp
  · intro p q nd hget hp
    by_cases h1 : q = ""
    · subst h1
      have hnd : nd = rootNodeTemplate := by
        have : jget? cleanSceneTreeState.nodeFromName "" = some rootNodeTemplate := by decide
        rw [this] at hget
        injection hget with hh
        exact hh.symm
      subst hnd
      have hpw : p = "/WorldAxes" := by
        simpa [rootNodeTemplate] using hp
      subst hpw
      decide
    · by_cases h2 : q = "/WorldAxes"
      · subst h2
        have hnd : nd = rootAxesNode := by
          have : jget? cleanSceneTreeState.nodeFromName "/WorldAxes" = some rootAxesNode := by
            decide
          rw [this] at hget
          injection hget with hh
          exact hh.symm
        subst hnd
        simp [rootAxesNode] at hp
      · exfalso
        have hnone : jget? cleanSceneTreeState.nodeFromName q = none := by
          simp [cleanSceneTreeState, jget?, Ne.symm h1, Ne.symm h2]
        rw [hnone] at hget
        cases hget

theorem regInv_jset_same_children (m : List (String × SceneNode)) (k : String)
    (old new : SceneNode) (hg : jget? m k = some old)
    (hc : new.children = old.children) (hinv : RegInv m) :
    RegInv (jset m k new) := by
  obtain ⟨hA, hB, hC⟩ := hinv
  have hcount : ∀ p, childCount (jset m k new) p = childCount m p := by
    intro p
    have h1 := childCount_jset_of_get m k old new p hg
    rw [hc] at h1
    omega
  refine ⟨?_, ?_, ?_⟩
  · intro p hp
    rw [hcount p]
    apply hA
    by_cases h1 : p = k
    · subst h1; rw [jmem_jset_self m p new] at hp; cases hp
    · rw [jmem_jset_ne m k p new h1] at hp; exact hp
  · intro p hp hne
    rw [hcount p]
    apply hB p ?_ hne
    by_cases h1 : p = k
    · subst h1; exact (jmem_true_iff m p).mpr ⟨old, hg⟩
    · rw [jmem_jset_ne m k p new h1] at hp; exact hp
  · intro p q nd hget hp
    by_cases h1 : q = k
    · subst h1
      rw [jget?_jset_self m q new] at hget
      have hnd : nd = new := by injection hget with hh; exact hh.symm
      subst hnd
      rw [hc] at hp
      exact hC p q old hg hp
    · rw [jget?_jset_ne m k q new h1] at hget
      exact hC p q nd hget hp

theorem regInv_insert (m : List (String × SceneNode)) (n : String)
    (mo : MakeObject) (pd pd2 : SceneNode)
    (hn : jget? m n = none)
    (hp : jget? m (parentName n) = some pd)
    (hpd2 : pd2 = { pd with children := pd.children ++ [n] })
    (hinv : RegInv m) :
    RegInv (jset (jset m n (mkSceneNode n mo)) (parentName n) pd2) := by
  obtain ⟨hA, hB, hC⟩ := hinv
  have hmemn : jmem m n = false := (jmem_false_iff m n).mpr hn
  have hmemp : jmem m (parentName n) = true := (jmem_true_iff m (parentName n)).mpr ⟨pd, hp⟩
  have hpn_ne : parentName n ≠ n := by
    intro hh; rw [hh, hn] at hp; cases hp
  have hrw : jset (jset m n (mkSceneNode n mo)) (parentName n) pd2
      = jset m (parentName n) pd2 ++ [(n, mkSceneNode n mo)] := by
    rw [jset_of_get_none m n (mkSceneNode n mo) hn]
    exact jset_append_of_mem m [(n, mkSceneNode n mo)] (parentName n) pd2 hmemp
  rw [hrw]
  have hcount : ∀ p, childCount (jset m (parentName n) pd2
        ++ [(n, mkSceneNode n mo)]) p
      = childCount m p + countStr p [n] := by
    intro p
    rw [childCount_append]
    have h1 := childCount_jset_of_get m (parentName n) pd pd2 p hp
    rw [hpd2] at h1
    simp only [countStr_append] at h1
    have h2 : childCount [(n, mkSceneNode n mo)] p = 0 := by
      simp [childCount, mkSceneNode, countStr]
    rw [← hpd2] at h1
    omega
  refine ⟨?_, ?_, ?_⟩
  · intro p hp'
    rw [jmem_append] at hp'
    obtain ⟨h1, h2⟩ := Bool.or_eq_false_iff.mp hp'
    have hptn : p ≠ n := by
      intro hh
      rw [hh] at h2
      rw [(jmem_single_iff n n (mkSceneNode n mo)).mpr rfl] at h2
      cases h2
    have hmp : jmem m p = false := by
      by_cases hq : p = parentName n
      · rw [hq] at h1
        rw [jmem_jset_self] at h1
        cases h1
      · rw [jmem_jset_ne m (parentName n) p pd2 hq] at h1
        exact h1
    rw [hcount p, hA p hmp]
    simp [countStr, Ne.symm hptn]
  · intro p hp' hne
    rw [hcount p]
    rw [jmem_append] at hp'
    by_cases hptn : p = n
    · subst hptn
      rw [hA p hmemn]
      simp [countStr]
    · have h2 : jmem [(n, mkSceneNode n mo)] p = false :=
        jmem_single_false n p (mkSceneNode n mo) (fun hh => hptn hh.symm)
      rw [h2, Bool.or_false] at hp'
      have hmp : jmem m p = true := by
        by_cases hq : p = parentName n
        · rw [hq]; exact hmemp
        · rw [jmem_jset_ne m (parentName n) p pd2 hq] at hp'
          exact hp'
      rw [hB p hmp hne]
      have hnp : ¬n = p := fun hh => hptn hh.symm
      simp [countStr, hnp]
  · intro p q nd hget hpin
    by_cases hq1 : q = parentName n
    · rw [hq1] at hget ⊢
      rw [jget?_append_left _ _ _ (by rw [jmem_jset_self])] at hget
      rw [jget?_jset_self] at hget
      have hnd : nd = pd2 := by injection hget with hh; exact hh.symm
      subst hnd
      rw [hpd2] at hpin
      rcases List.mem_append.mp hpin with h3 | h3
      · exact hC p (parentName n) pd hp h3
      · have hpn : p = n := by simpa using h3
        rw [hpn]
    · by_cases hq2 : q = n
      · rw [hq2] at hget
        have hmq : jmem (jset m (parentName n) pd2) n = false := by
          rw [jmem_jset_ne m (parentName n) n pd2 (Ne.symm hpn_ne)]
          exact hmemn
        rw [jget?_append_right _ _ _ hmq] at hget
        have hone : jget? [(n, mkSceneNode n mo)] n = some (mkSceneNode n mo) := by
          simp [jget?]
        rw [hone] at hget
        injection hget with hh
        rw [← hh] at hpin
        simp [mkSceneNode] at hpin
      · by_cases hmq : jmem m q = true
        · rw [jget?_append_left _ _ _
            (by rw [jmem_jset_ne m (parentName n) q pd2 hq1]; exact hmq)] at hget
          rw [jget?_jset_ne m (parentName n) q pd2 hq1] at hget
          exact hC p q nd hget hpin
        · have hmqf : jmem m q = false := by
            cases hmm : jmem m q
            · rfl
            · exact absurd hmm hmq
          have hmq' : jmem (jset m (parentName n) pd2) q = false := by
            rw [jmem_jset_ne m (parentName n) q pd2 hq1]
            exact hmqf
          rw [jget?_append_right _ _ _ hmq'] at hget
          have hnq : ¬n = q := fun hh => hq2 hh.symm
          have hnone : jget? [(n, mkSceneNode n mo)] q = none := by
            simp [jget?, hnq]
          rw [hnone] at hget
          cases hget

theorem regInv_step (s : SceneTreeState) (n : String) (mo : MakeObject)
    (hp : jmem s.nodeFromName (parentName n) = true)
    (hinv : RegInv s.nodeFromName) :
    RegInv ((addSceneNode (mkSceneNode n mo) s).getD s).nodeFromName := by
  cases hg : jget? s.nodeFromName n with
  | some old =>
      rw [addSceneNode_replace (mkSceneNode n mo) s old hg]
      rw [Option.getD_some]
      exact regInv_jset_same_children s.nodeFromName n old
        { mkSceneNode n mo with children := old.children } hg rfl hinv
  | none =>
      rcases (jmem_true_iff _ _).mp hp with ⟨pd, hpd⟩
      have hpn_ne : parentName n ≠ n := by
        intro hh; rw [hh, hg] at hpd; cases hpd
      have hlook : jget? (jset s.nodeFromName n (mkSceneNode n mo)) (parentName n)
          = some pd := by
        rw [jget?_jset_ne s.nodeFromName n (parentName n) (mkSceneNode n mo) hpn_ne]
        exact hpd
      rw [addSceneNode_insert (mkSceneNode n mo) s pd hg hlook]
      rw [Option.getD_some]
      exact regInv_insert s.nodeFromName n mo pd _ hg hpd rfl hinv

theorem addAll_regInv (ops : List (String × MakeObject)) (s : SceneTreeState)
    (h : parentsOk ops s = true) (hinv : RegInv s.nodeFromName) :
    RegInv (addAll ops s).nodeFromName := by
  induction ops generalizing s with
  | nil => simpa [addAll] using hinv
  | cons e rest ih =>
      obtain ⟨n, mo⟩ := e
      rw [parentsOk, Bool.and_eq_true] at h
      obtain ⟨h1, h2⟩ := h
      rw [addAll]
      exact ih ((addSceneNode (mkSceneNode n mo) s).getD s) h2 (regInv_step s n mo h1 hinv)

/-! ### Concrete states used by the claims -/

/-- State with `/a`, `/ab` and `/a/b` added to the clean state. -/
def sharedPathsState : SceneTreeState :=
  addAll [("/a", 1), ("/ab", 2), ("/a/b", 3)] cleanSceneTreeState

/-- State after adding `/box` to the clean state. -/
def boxState : SceneTreeState :=
  (addSceneNode (mkSceneNode "/box" 7) cleanSceneTreeState).getD cleanSceneTreeState

/-- State after additionally adding `/box/label` and hiding `/box`. -/
def preRemoveState : SceneTreeState :=
  setVisibility "/box" false
    ((addSceneNode (mkSceneNode "/box/label" 8) boxState).getD boxState)

/-- Final state of the end-to-end sequence: `preRemoveState` after
`removeSceneNode("/box")`. -/
def endToEndState : SceneTreeState :=
  (removeSceneNode "/box" preRemoveState).getD preRemoveState

/-! ### The claims -/

/-- Claim C1, evaluated at the failing input.  In a registry holding the
sibling paths `/a` and `/ab` (plus the descendant `/a/b`),
`removeSceneNode("/a")` succeeds and, through the bare `startsWith` scan,
deletes not only `/a` and `/a/b` but also the registry entry of the
sibling `/ab`, which the claim requires to stay present and unchanged. -/
theorem c1_removeNode_deletes_textual_sibling :
    jmem sharedPathsState.nodeFromName "/ab" = true ∧
    (removeSceneNode "/a" sharedPathsState).isSome = true ∧
    jmem ((removeSceneNode "/a" sharedPathsState).getD sharedPathsState).nodeFromName "/a" = false ∧
    jmem ((removeSceneNode "/a" sharedPathsState).getD sharedPathsState).nodeFromName "/a/b" = false ∧
    jmem ((removeSceneNode "/a" sharedPathsState).getD sharedPathsState).nodeFromName "/ab" = false := by
  decide

/-- Claim C2, evaluated at the failing input.  After adding `/box`,
`resetScene` leaves the state unchanged : the producer merely reassigns
its local draft variable, so no change is committed.  The registry still
holds `/box` and the state differs from the seeded `cleanSceneTreeState`,
contradicting the claim that reset restores exactly the initial state. -/
theorem c2_resetScene_is_noop :
    resetScene boxState = boxState ∧
    jmem (resetScene boxState).nodeFromName "/box" = true ∧
    ¬ resetScene boxState = cleanSceneTreeState := by
  decide

/-- Claim C3, evaluated at the failing input.  The end-to-end sequence add
`/box`, add `/box/label`, hide `/box`, remove `/box` leaves no registry
entry for either path and no overlay entry for `/box` itself, but the
visibility overlay still maps the removed descendant `/box/label` to
`true` : `removeSceneNode` deletes overlay entries only for the removed
path, not for its descendants. -/
theorem c3_dangling_descendant_overlay :
    jmem endToEndState.nodeFromName "/box" = false ∧
    jmem endToEndState.nodeFromName "/box/label" = false ∧
    jmem endToEndState.visibilityFromName "/box" = false ∧
    jmem endToEndState.matrixFromName "/box" = false ∧
    jget? endToEndState.visibilityFromName "/box/label" = some true := by
  decide

/-- Claim C4: re-adding an existing path replaces the stored factory while
the stored child list is preserved verbatim, and every other registry
entry and all three overlays are unchanged. -/
theorem c4_readd_preserves_children (s : SceneTreeState) (node old : SceneNode)
    (hg : jget? s.nodeFromName node.name = some old) :
    ∃ s', addSceneNode node s = some s' ∧
      jget? s'.nodeFromName node.name = some { node with children := old.children } ∧
      (∀ q, q ≠ node.name → jget? s'.nodeFromName q = jget? s.nodeFromName q) ∧
      s'.visibilityFromName = s.visibilityFromName ∧
      s'.matrixFromName = s.matrixFromName ∧
      s'.objFromName = s.objFromName := by
  refine ⟨_, addSceneNode_replace node s old hg, ?_, ?_, rfl, rfl, rfl⟩
  · exact jget?_jset_self s.nodeFromName node.name _
  · intro q hq
    exact jget?_jset_ne s.nodeFromName node.name q _ hq

theorem c4_witness :
    jget? cleanSceneTreeState.nodeFromName "" = some rootNodeTemplate ∧
    (∃ s', addSceneNode (mkSceneNode "" 9) cleanSceneTreeState = some s' ∧
      jget? s'.nodeFromName "" = some { mkSceneNode "" 9 with children := rootNodeTemplate.children } ∧
      (∀ q, q ≠ "" → jget? s'.nodeFromName q = jget? cleanSceneTreeState.nodeFromName q) ∧
      s'.visibilityFromName = cleanSceneTreeState.visibilityFromName ∧
      s'.matrixFromName = cleanSceneTreeState.matrixFromName ∧
      s'.objFromName = cleanSceneTreeState.objFromName) :=
  ⟨by decide, c4_readd_preserves_children cleanSceneTreeState (mkSceneNode "" 9)
    rootNodeTemplate (by decide)⟩

/-- Claim C5: removing a path that is absent from the registry is a
logged no-op, returning the whole state unchanged. -/
theorem c5_remove_absent_noop (s : SceneTreeState) (name : String)
    (h : jmem s.nodeFromName name = false) :
    removeSceneNode name s = some s :=
  removeSceneNode_absent name s h

theorem c5_witness :
    jmem cleanSceneTreeState.nodeFromName "/ghost" = false ∧
    removeSceneNode "/ghost" cleanSceneTreeState = some cleanSceneTreeState :=
  ⟨by decide, c5_remove_absent_noop cleanSceneTreeState "/ghost" (by decide)⟩

/-- Claim C6: adding a node whose path and textual parent path are both
absent is never partially applied.  Either the call throws with the
committed state unchanged (the `none` case), or, in the degenerate
self-parent case of the root path, the complete insertion takes effect:
registry entry, child-list append and visibility default, so the new path
is registered, has a visibility entry, and occurs in the child list of the
entry at its textual parent path. -/
theorem c6_add_atomic (s : SceneTreeState) (node : SceneNode)
    (h1 : jmem s.nodeFromName node.name = false)
    (h2 : jmem s.nodeFromName (parentName node.name) = false) :
    addSceneNode node s = none ∨
    (∃ s', addSceneNode node s = some s' ∧ jmem s'.nodeFromName node.name = true ∧
      jmem s'.visibilityFromName node.name = true ∧
      ∃ pd, jget? s'.nodeFromName (parentName node.name) = some pd ∧
        node.name ∈ pd.children) := by
  have hg : jget? s.nodeFromName node.name = none := (jmem_false_iff _ _).mp h1
  by_cases hpn : parentName node.name = node.name
  · right
    have hlook : jget? (jset s.nodeFromName node.name node) (parentName node.name)
        = some node := by
      rw [hpn]
      exact jget?_jset_self s.nodeFromName node.name node
    refine ⟨_, addSceneNode_insert node s node hg hlook, ?_, ?_, ?_⟩
    · dsimp only
      rw [hpn]
      exact jmem_jset_self _ _ _
    · show jmem (if jmem s.visibilityFromName node.name then s.visibilityFromName else jset s.visibilityFromName node.name true) node.name = true
      by_cases hv : jmem s.visibilityFromName node.name = true
      · rw [hv, if_pos rfl]
        exact hv
      · have hvf : jmem s.visibilityFromName node.name = false := by
          cases hb : jmem s.visibilityFromName node.name
          · rfl
          · exact absurd hb hv
        rw [hvf, if_neg (by simp)]
        exact jmem_jset_self _ _ _
    · refine ⟨{ node with children := node.children ++ [node.name] }, ?_, ?_⟩
      · dsimp only
        exact jget?_jset_self _ _ _
      · simp
  · left
    have hlook : jget? (jset s.nodeFromName node.name node) (parentName node.name)
        = none := by
      rw [jget?_jset_ne s.nodeFromName node.name (parentName node.name) node hpn]
      exact (jmem_false_iff _ _).mp h2
    exact addSceneNode_orphan node s hg hlook

theorem c6_witness :
    jmem cleanSceneTreeState.nodeFromName "/x/y" = false ∧
    jmem cleanSceneTreeState.nodeFromName (parentName "/x/y") = false ∧
    (addSceneNode (mkSceneNode "/x/y" 3) cleanSceneTreeState = none ∨
      (∃ s', addSceneNode (mkSceneNode "/x/y" 3) cleanSceneTreeState = some s' ∧
        jmem s'.nodeFromName "/x/y" = true ∧
        jmem s'.visibilityFromName "/x/y" = true ∧
        ∃ pd, jget? s'.nodeFromName (parentName "/x/y") = some pd ∧
          "/x/y" ∈ pd.children)) :=
  ⟨by decide, by decide,
    c6_add_atomic cleanSceneTreeState (mkSceneNode "/x/y" 3) (by decide) (by decide)⟩

/-- Claim C7 as stated is refuted by the empty sequence: the seeded root
node has the registered path `""`, yet that path occurs in no child list
at all, so its total number of occurrences across all child lists is zero
rather than exactly one. -/
theorem c7_counterexample :
    parentsOk [] cleanSceneTreeState = true ∧
    jmem (addAll [] cleanSceneTreeState).nodeFromName "" = true ∧
    childCount (addAll [] cleanSceneTreeState).nodeFromName "" = 0 := by
  decide

/-- Claim C7 amended to exclude the root path: after any sequence of
`addSceneNode` calls whose added paths have their textual parent present at
the time of the call, every registered path other than the root occurs
exactly once across all child lists, and any child list containing it is
the child list of the entry at its textual parent path. -/
theorem c7_amended_unique_parent (ops : List (String × MakeObject))
    (h : parentsOk ops cleanSceneTreeState = true) :
    ∀ p, jmem (addAll ops cleanSceneTreeState).nodeFromName p = true → p ≠ "" →
      childCount (addAll ops cleanSceneTreeState).nodeFromName p = 1 ∧
      ∀ q nd, jget? (addAll ops cleanSceneTreeState).nodeFromName q = some nd →
        p ∈ nd.children → q = parentName p := by
  obtain ⟨hA, hB, hC⟩ := addAll_regInv ops cleanSceneTreeState h regInv_clean
  intro p hp hne
  exact ⟨hB p hp hne, fun q nd hq hpin => hC p q nd hq hpin⟩

theorem c7_witness :
    parentsOk [("/a", 5), ("/a/b", 6)] cleanSceneTreeState = true ∧
    (∀ p, jmem (addAll [("/a", 5), ("/a/b", 6)] cleanSceneTreeState).nodeFromName p = true →
      p ≠ "" →
      childCount (addAll [("/a", 5), ("/a/b", 6)] cleanSceneTreeState).nodeFromName p = 1 ∧
      ∀ q nd, jget? (addAll [("/a", 5), ("/a/b", 6)] cleanSceneTreeState).nodeFromName q = some nd →
        p ∈ nd.children → q = parentName p) :=
  ⟨by decide, c7_amended_unique_parent [("/a", 5), ("/a/b", 6)] (by decide)⟩

/-- Claim C8: consecutive visibility writes to the same path coalesce to
the last write.  Writing `v1` and then `v2` yields exactly the state
produced by writing `v2` alone, so the intermediate value is retained
nowhere in the state. -/
theorem c8_setVisibility_last_write_wins (s : SceneTreeState) (p : String)
    (v1 v2 : Bool) :
    setVisibility p v2 (setVisibility p v1 s) = setVisibility p v2 s := by
  cases s
  simp [setVisibility, jset_jset_self]

/-- Claim C9: a visibility write for a path with no registry entry is
recorded in the overlay, and a subsequent `addSceneNode` of a node with
that path (with its parent present) preserves the buffered value rather
than overwriting it with the default `true`; the default is written only
when no visibility entry exists. -/
theorem c9_visibility_buffered_before_add (s : SceneTreeState) (p : String)
    (v : Bool) (node : SceneNode)
    (hname : node.name = p)
    (habs : jmem s.nodeFromName p = false)
    (hpar : jmem s.nodeFromName (parentName p) = true) :
    jget? (setVisibility p v s).visibilityFromName p = some v ∧
    ∃ s', addSceneNode node (setVisibility p v s) = some s' ∧
      jget? s'.visibilityFromName p = some v := by
  subst hname
  constructor
  · exact jget?_jset_self s.visibilityFromName node.name v
  · have hg : jget? (setVisibility node.name v s).nodeFromName node.name = none := by
      show jget? s.nodeFromName node.name = none
      exact (jmem_false_iff _ _).mp habs
    rcases (jmem_true_iff _ _).mp hpar with ⟨pd, hpd⟩
    have hpn_ne : parentName node.name ≠ node.name := by
      intro hh
      rw [hh] at hpar
      rw [hpar] at habs
      cases habs
    have hlook : jget? (jset (setVisibility node.name v s).nodeFromName node.name node)
        (parentName node.name) = some pd := by
      rw [jget?_jset_ne _ _ _ _ hpn_ne]
      show jget? s.nodeFromName (parentName node.name) = some pd
      exact hpd
    refine ⟨_, addSceneNode_insert node (setVisibility node.name v s) pd hg hlook, ?_⟩
    have hvm : jmem (setVisibility node.name v s).visibilityFromName node.name = true := by
      show jmem (jset s.visibilityFromName node.name v) node.name = true
      exact jmem_jset_self _ _ _
    show jget? (if jmem (setVisibility node.name v s).visibilityFromName node.name then (setVisibility node.name v s).visibilityFromName else jset (setVisibility node.name v s).visibilityFromName node.name true) node.name = some v
    rw [hvm, if_pos rfl]
    show jget? (jset s.visibilityFromName node.name v) node.name = some v
    exact jget?_jset_self _ _ _

theorem c9_witness :
    (mkSceneNode "/box" 5).name = "/box" ∧
    jmem cleanSceneTreeState.nodeFromName "/box" = false ∧
    jmem cleanSceneTreeState.nodeFromName (parentName "/box") = true ∧
    (jget? (setVisibility "/box" false cleanSceneTreeState).visibilityFromName "/box" = some false ∧
      ∃ s', addSceneNode (mkSceneNode "/box" 5) (setVisibility "/box" false cleanSceneTreeState) = some s' ∧
        jget? s'.visibilityFromName "/box" = some false) :=
  ⟨rfl, by decide, by decide,
    c9_visibility_buffered_before_add cleanSceneTreeState "/box" false
      (mkSceneNode "/box" 5) rfl (by decide) (by decide)⟩

/-- Claim C10: removing the root path `""` (when present, as it is in every
reachable state) empties the registry entirely, including both seeded
nodes, because the textual parent of `""` is `""` itself and every key
passes the `startsWith("")` scan; the object overlay is untouched and
visibility and matrix overlay entries for paths other than `""` are left
in place. -/
theorem c10_remove_root_empties_registry (s : SceneTreeState)
    (h : jmem s.nodeFromName "" = true) :
    ∃ s', removeSceneNode "" s = some s' ∧ s'.nodeFromName = [] ∧
      s'.objFromName = s.objFromName ∧
      (∀ q, q ≠ "" →
        jget? s'.visibilityFromName q = jget? s.visibilityFromName q ∧
        jget? s'.matrixFromName q = jget? s.matrixFromName q) := by
  rcases (jmem_true_iff _ _).mp h with ⟨root, hroot⟩
  have hparent : jget? s.nodeFromName (parentName "") = some root := by
    rw [parentName_empty]
    exact hroot
  refine ⟨_, removeSceneNode_present "" s root h hparent, ?_, rfl, ?_⟩
  · dsimp only
    have hfilter : ∀ l : List String, l.filter (fun q => jsStartsWith q "") = l := by
      intro l
      apply List.filter_eq_self.mpr
      intro a _
      rfl
    rw [hfilter]
    apply foldl_jdel_eq_nil
    intro e he
    exact List.mem_map_of_mem Prod.fst he
  · intro q hq
    constructor
    · exact jget?_jdel_ne s.visibilityFromName "" q hq
    · exact jget?_jdel_ne s.matrixFromName "" q hq

theorem c10_witness :
    jmem (setMatrix "/m" 4 cleanSceneTreeState).nodeFromName "" = true ∧
    (∃ s', removeSceneNode "" (setMatrix "/m" 4 cleanSceneTreeState) = some s' ∧
      s'.nodeFromName = [] ∧
      s'.objFromName = (setMatrix "/m" 4 cleanSceneTreeState).objFromName ∧
      (∀ q, q ≠ "" →
        jget? s'.visibilityFromName q = jget? (setMatrix "/m" 4 cleanSceneTreeState).visibilityFromName q ∧
        jget? s'.matrixFromName q = jget? (setMatrix "/m" 4 cleanSceneTreeState).matrixFromName q)) :=
  ⟨by decide, c10_remove_root_empties_registry (setMatrix "/m" 4 cleanSceneTreeState) (by decide)⟩
